import Mathlib

/-!
Verification development for the notion2quote coordination core.

The definitions below are a shallow embedding of the relevant functions of
`src/services/syncService.js` (the queue/dedup/rate-limit variant that
carries `forceSync` and `eventId`) and of `src/services/quote.js` (the
time-modulo batch selection variant of `sendTasksInBatches`).

Modelling conventions:
* JS timestamps (`Date.now()`) are natural numbers of milliseconds.
* The module-level mutable state (`syncQueue`, `apiCalls`, `processedEvents`)
  is threaded explicitly through a `SyncState` record.
* The two outbound HTTP collaborators (`getNotionTasks`, the axios push) are
  external to the repository; their outcome is an input (`ExecOutcome`,
  `pushOk`) of each drain-loop iteration, as the spec treats them as opaque
  collaborators.
* Callback invocations, pushes and sleeps performed by an iteration of
  `processSyncQueue` are recorded in an event list (`SyncEvent`).
-/

set_option maxRecDepth 40000

namespace N2Q

/-- `MAX_CALLS_PER_MINUTE` from syncService.js. -/
def MAX_CALLS_PER_MINUTE : Nat := 60

/-- `MAX_CACHE_SIZE` from syncService.js. -/
def MAX_CACHE_SIZE : Nat := 1000

/-- `isOverRateLimit()` from syncService.js: filters `apiCalls` down to the
timestamps within the last 60000 ms of `now` and compares the count with
`MAX_CALLS_PER_MINUTE`.  (`apiCalls.filter(ts => now - ts < 60000)`; the JS
function does not mutate `apiCalls`, it reads a filtered view.) -/
def isOverRateLimit (apiCalls : List Nat) (now : Nat) : Bool :=
  decide (MAX_CALLS_PER_MINUTE ≤ (apiCalls.filter (fun ts => now - ts < 60000)).length)

/-- `recordApiCall()` from syncService.js: pushes `now` onto `apiCalls`, then
shifts entries from the head while `now - apiCalls[0] >= 60000`. -/
def recordApiCall (apiCalls : List Nat) (now : Nat) : List Nat :=
  (apiCalls ++ [now]).dropWhile (fun ts => 60000 ≤ now - ts)

/-- Scenario helper: `n` successive `recordApiCall()` invocations, all at
wall-clock time `t`, starting from window `w`. -/
def recordNCalls (w : List Nat) (t : Nat) : Nat → List Nat
  | 0 => w
  | n + 1 => recordApiCall (recordNCalls w t n) t

/-- `isEventProcessed(eventId)` from syncService.js: membership in the
`processedEvents` set (modelled as its insertion-order list). -/
def isEventProcessed (eventId : String) (processedEvents : List String) : Bool :=
  processedEvents.contains eventId

/-- `addProcessedEvent(eventId)` from syncService.js.  The JS `Set` is
modelled as its insertion-order element list (no duplicates are ever
appended, matching `Set.add`).  If the size has reached `MAX_CACHE_SIZE`
before insertion, the oldest `MAX_CACHE_SIZE / 2` entries
(`Array.from(set).slice(0, 500)`) are deleted first. -/
def addProcessedEvent {α : Type} [DecidableEq α] (eventId : α) (processedEvents : List α) :
    List α :=
  let cache :=
    if MAX_CACHE_SIZE ≤ processedEvents.length then
      processedEvents.drop (MAX_CACHE_SIZE / 2)
    else processedEvents
  if eventId ∈ cache then cache else cache ++ [eventId]

/-- Scenario helper: `markProcessed` each identifier of `ids` in order,
starting from `cache`. -/
def insertAllEvents {α : Type} [DecidableEq α] (ids : List α) (cache : List α) : List α :=
  ids.foldl (fun c eid => addProcessedEvent eid c) cache

/-- A queued sync task, as built by `addSyncTask` in syncService.js.  The JS
completion callback is opaque external code; the model keeps its presence as
a flag and records invocations as events. -/
structure SyncTask where
  type : String
  forceSync : Bool
  eventId : Option String
  hasCallback : Bool
  timestamp : Nat
deriving DecidableEq, Repr

/-- JS truthiness of the optional `eventId` string (`undefined` and `""` are
falsy). -/
def jsTruthyId : Option String → Bool
  | none => false
  | some s => s != ""

/-- The module-level mutable state of syncService.js. -/
structure SyncState where
  syncQueue : List SyncTask
  apiCalls : List Nat
  processedEvents : List String
deriving DecidableEq, Repr

/-- `addSyncTask(options)` from syncService.js.  Returns
`((accepted, callbackInvocation), newState)`: when `eventId` is truthy and
already processed, the task is rejected (`accepted = false`), the state is
untouched and `callback(true)` fires if a callback is present; otherwise the
task is appended to `syncQueue` and `accepted = true`. -/
def addSyncTask (type : String) (forceSync : Bool) (eventId : Option String)
    (hasCallback : Bool) (now : Nat) (s : SyncState) : (Bool × Option Bool) × SyncState :=
  if jsTruthyId eventId && isEventProcessed (eventId.getD "") s.processedEvents then
    ((false, if hasCallback then some true else none), s)
  else
    ((true, none),
      { s with syncQueue := s.syncQueue ++ [⟨type, forceSync, eventId, hasCallback, now⟩] })

/-- The task-selection step of the `processSyncQueue` drain loop in
syncService.js: `syncQueue.find(t => t.forceSync)` and, when found, its
removal by `splice` (first occurrence); otherwise `syncQueue.shift()`.
Returns the selected task and the remaining queue. -/
def dequeueNext (q : List SyncTask) : Option (SyncTask × List SyncTask) :=
  match q with
  | [] => none
  | h :: t =>
    match (h :: t).find? (fun tk => tk.forceSync) with
    | some ft => some (ft, (h :: t).eraseP (fun tk => tk.forceSync))
    | none => some (h, t)

/-- Outcome of one orchestrated execution (the `getNotionTasks` +
`sendTasksInBatches` section of a drain iteration): `ok success` when both
calls return (with `success` the value of `sendTasksInBatches`), `raised`
when the execution throws (e.g. `getNotionTasks` rejects). -/
inductive ExecOutcome where
  | ok (success : Bool)
  | raised
deriving DecidableEq, Repr

/-- Observable actions of one drain-loop iteration. -/
inductive SyncEvent where
  | waited (ms : Nat)
  | requeued (task : SyncTask)
  | executed (task : SyncTask) (outcome : ExecOutcome)
  | callbackInvoked (task : SyncTask) (success : Bool)
deriving DecidableEq, Repr

/-- Is the event an execution of the sync? -/
def isExecutedEvent : SyncEvent → Bool
  | SyncEvent.executed _ _ => true
  | _ => false

/-- Is the event a completion-callback invocation? -/
def isCallbackEvent : SyncEvent → Bool
  | SyncEvent.callbackInvoked _ _ => true
  | _ => false

/-- One iteration of the `while (syncQueue.length > 0)` body of
`processSyncQueue` in syncService.js, at wall-clock `now`, with the
collaborators' behaviour given by `outcome`:

* select the first `forceSync` task if any, else the head, and remove it;
* if `isOverRateLimit()`: sleep 1000 ms, `unshift` the task back, `continue`
  (skipping `recordApiCall`, the execution, the callback and the 500 ms
  inter-task sleep);
* otherwise `recordApiCall()`, run the execution; on normal completion
  record the event id (if truthy) via `addProcessedEvent` and invoke the
  callback with the success value; on a raised execution (caught by the JS
  `catch`) skip `addProcessedEvent` and invoke the callback with `false`;
  finally sleep 500 ms. -/
def processSyncQueueStep (s : SyncState) (now : Nat) (outcome : ExecOutcome) :
    SyncState × List SyncEvent :=
  match dequeueNext s.syncQueue with
  | none => (s, [])
  | some (task, rest) =>
    if isOverRateLimit s.apiCalls now then
      ({ s with syncQueue := task :: rest },
        [SyncEvent.waited 1000, SyncEvent.requeued task])
    else
      let s1 : SyncState := { s with syncQueue := rest, apiCalls := recordApiCall s.apiCalls now }
      match outcome with
      | ExecOutcome.ok success =>
        let s2 : SyncState :=
          if jsTruthyId task.eventId then
            { s1 with processedEvents := addProcessedEvent (task.eventId.getD "") s1.processedEvents }
          else s1
        (s2,
          SyncEvent.executed task (ExecOutcome.ok success) ::
            (if task.hasCallback then [SyncEvent.callbackInvoked task success] else []) ++
              [SyncEvent.waited 500])
      | ExecOutcome.raised =>
        (s1,
          SyncEvent.executed task ExecOutcome.raised ::
            (if task.hasCallback then [SyncEvent.callbackInvoked task false] else []) ++
              [SyncEvent.waited 500])

/-- Iterated drain loop: runs `processSyncQueueStep` while the queue is
nonempty, consuming one `(now, outcome)` oracle entry per iteration, bounded
by `fuel`.  Accumulates the events of all iterations. -/
def processSyncQueueRun : Nat → SyncState → List (Nat × ExecOutcome) → SyncState × List SyncEvent
  | 0, s, _ => (s, [])
  | _ + 1, s, [] => (s, [])
  | fuel + 1, s, (now, outcome) :: oracle =>
    match s.syncQueue with
    | [] => (s, [])
    | _ :: _ =>
      let r1 := processSyncQueueStep s now outcome
      let r2 := processSyncQueueRun fuel r1.1 oracle
      (r2.1, r1.2 ++ r2.2)

/-- The dequeue order of the drain loop on a fixed queue (no rate limiting
and no concurrent enqueues): repeatedly apply `dequeueNext`.  Fuel-indexed
helper; `q.length` fuel always suffices. -/
def drainOrderAux : Nat → List SyncTask → List SyncTask
  | 0, _ => []
  | fuel + 1, q =>
    match dequeueNext q with
    | none => []
    | some (tk, r) => tk :: drainOrderAux fuel r

/-- The order in which the drain loop of `processSyncQueue` serves a fixed
queue. -/
def drainOrder (q : List SyncTask) : List SyncTask :=
  drainOrderAux q.length q

/-! Embedding of `src/services/quote.js` (time-modulo batch selection
variant).  `config.app` comes from `src/config.js`. -/

/-- The `app` section of the configuration object built by `getConfig()` in
config.js. -/
structure AppConfig where
  timeout : Nat
  maxMessageLength : Nat
deriving DecidableEq, Repr

/-- The parts of the `getConfig()` object that quote.js reads (the API keys
and endpoint are opaque strings used only by the HTTP layer). -/
structure Config where
  app : AppConfig
deriving DecidableEq, Repr

/-- `getConfig()` application settings from config.js:
`timeout: 10000`, `maxMessageLength: 500`. -/
def getConfig : Config := ⟨⟨10000, 500⟩⟩

/-- JS `s.substring(0, n)` for a string `s` (clamped prefix of length `n`). -/
def jsSubstring (s : String) (n : Nat) : String :=
  String.mk (s.toList.take n)

/-- The per-item rendering lambda of `formatTasksMessage` in quote.js:
`task.length > 11 ? task.substring(0, 11) + '...' : task`, numbered from
`startIndex + index + 1`. -/
def formatTaskLine (startIndex : Nat) (index : Nat) (task : String) : String :=
  let limitedTask := if 11 < task.length then jsSubstring task 11 ++ "..." else task
  toString (startIndex + index + 1) ++ ". " ++ limitedTask

/-- `formatTasksMessage(tasks, batchNumber, totalBatches, startIndex)` from
quote.js: render each task on its own numbered line (with the 11-character
per-item cap), join with newlines, then truncate the whole text to
`config.app.maxMessageLength` characters plus `'...'` when it is longer.
`batchNumber` and `totalBatches` are accepted but unused, as in the source. -/
def formatTasksMessage (config : Config) (tasks : List String)
    (_batchNumber : Nat) (_totalBatches : Nat) (startIndex : Nat) : String :=
  let tasksText := String.intercalate "\n" (tasks.mapIdx (fun i task => formatTaskLine startIndex i task))
  if config.app.maxMessageLength < tasksText.length then
    jsSubstring tasksText config.app.maxMessageLength ++ "..."
  else tasksText

/-- `Math.ceil(a / b)` for natural `a`, `b` (as used for
`totalBatches = Math.ceil(totalTasks / batchSize)`; equals the real ceiling
whenever `b > 0`). -/
def jsCeilDiv (a b : Nat) : Nat := (a + b - 1) / b

/-- JS `x % T` (for the nonnegative operands arising here: `fmod`, i.e.
`x - T * ⌊x / T⌋`). -/
def jsFloorMod (x T : ℚ) : ℚ := x - T * (Int.floor (x / T) : ℚ)

/-- `Math.floor((minutesSinceMidnight / batchInterval) % totalBatches)` from
quote.js, computed over exact rationals in place of JS floats. -/
def currentBatchIndex (minutesSinceMidnight batchInterval totalBatches : Nat) : Int :=
  Int.floor (jsFloorMod ((minutesSinceMidnight : ℚ) / (batchInterval : ℚ)) (totalBatches : ℚ))

/-- JS `list.slice(s, e)` for the nonnegative index range used here. -/
def jsSlice {α : Type} (l : List α) (s e : Int) : List α :=
  (l.take e.toNat).drop s.toNat

/-- One axios push performed by `sendTasksInBatches` (the payload fields the
claims speak about). -/
structure PushCall where
  batchNumber : Int
  totalBatches : Nat
  totalTasks : Nat
  startIndex : Int
  batchTasks : List String
deriving DecidableEq, Repr

/-- `sendTasksInBatches(tasks, batchSize, intervalMinutes)` from quote.js
(time-modulo variant).  `hour`/`minute` are the components of `new Date()`
read inside the function; `pushOk` is the success of the single axios push
(`status === 200 || data.code === 200`), which the function returns.
Returns the boolean result together with the list of pushes performed:
for an empty task list the function returns `true` before the batch formula
is evaluated and performs no push. -/
def sendTasksInBatches (tasks : List String) (batchSize intervalMinutes : Nat)
    (hour minute : Nat) (pushOk : Bool) : Bool × List PushCall :=
  let totalTasks := tasks.length
  let totalBatches := jsCeilDiv totalTasks batchSize
  if totalTasks = 0 then (true, [])
  else
    let minutesSinceMidnight := hour * 60 + minute
    let currentBatch : Int := currentBatchIndex minutesSinceMidnight intervalMinutes totalBatches + 1
    let startIndex : Int := (currentBatch - 1) * (batchSize : Int)
    let endIndex : Int := min (startIndex + (batchSize : Int)) (totalTasks : Int)
    let batchTasks := jsSlice tasks startIndex endIndex
    (pushOk, [⟨currentBatch, totalBatches, totalTasks, startIndex, batchTasks⟩])

/-! ### Rate limiter lemmas (C2) -/

/-- Dropping the stale prefix does not change the recent entries of the
window. -/
theorem filter_recent_dropWhile (l : List Nat) (now : Nat) :
    (l.dropWhile (fun ts => 60000 ≤ now - ts)).filter (fun ts => now - ts < 60000) =
      l.filter (fun ts => now - ts < 60000) := by
  induction l with
  | nil => rfl
  | cons h t ih =>
    rw [List.dropWhile_cons]
    by_cases hh : 60000 ≤ now - h
    · have hnr : ¬(now - h < 60000) := by omega
      rw [if_pos (by simpa using hh), ih, List.filter_cons_of_neg (by simpa using hnr)]
    · simp [hh]

/-- `recordApiCall` adds exactly one recent entry to the recent view of the
window. -/
theorem filter_recordApiCall (w : List Nat) (now : Nat) :
    (recordApiCall w now).filter (fun ts => now - ts < 60000) =
      w.filter (fun ts => now - ts < 60000) ++ [now] := by
  unfold recordApiCall
  rw [filter_recent_dropWhile, List.filter_append]
  simp

/-- Recording `n` calls at time `t` adds `n` recent entries. -/
theorem length_filter_recordNCalls (w : List Nat) (t : Nat) (n : Nat) :
    ((recordNCalls w t n).filter (fun ts => t - ts < 60000)).length =
      (w.filter (fun ts => t - ts < 60000)).length + n := by
  induction n with
  | zero => rfl
  | succ n ih =>
    show ((recordApiCall (recordNCalls w t n) t).filter _).length = _
    rw [filter_recordApiCall, List.length_append, ih]
    simp [Nat.add_assoc]

/-- Every timestamp in the window after `recordApiCall` at time `t` is an old
timestamp or `t` itself. -/
theorem mem_recordApiCall_le {w : List Nat} {t x : Nat} (hw : ∀ ts ∈ w, ts ≤ t)
    (hx : x ∈ recordApiCall w t) : x ≤ t := by
  unfold recordApiCall at hx
  have hx2 : x ∈ w ++ [t] := (List.dropWhile_sublist _).mem hx
  rcases List.mem_append.mp hx2 with h | h
  · exact hw x h
  · simp at h; omega

/-- Every timestamp after `n` recordings at time `t` is at most `t`. -/
theorem mem_recordNCalls_le {w : List Nat} {t : Nat} (hw : ∀ ts ∈ w, ts ≤ t) :
    ∀ n, ∀ x ∈ recordNCalls w t n, x ≤ t := by
  intro n
  induction n with
  | zero => exact hw
  | succ n ih => exact fun x hx => mem_recordApiCall_le ih hx

/-- C2: `isOverRateLimit` filters out entries older than 60000 ms and
compares the remaining count with `MAX_CALLS_PER_MINUTE = 60`; after
recording 60 calls at time `t` it reports `true` at `t`, and at `t + 60000`
(the whole window having aged out) it reports `false` again with no further
calls recorded. -/
theorem C2_rate_limiter (w : List Nat) (t : Nat) (hw : ∀ ts ∈ w, ts ≤ t) :
    MAX_CALLS_PER_MINUTE = 60 ∧
    (∀ (calls : List Nat) (now : Nat),
      isOverRateLimit calls now =
        decide (MAX_CALLS_PER_MINUTE ≤
          (calls.filter (fun ts => now - ts < 60000)).length)) ∧
    isOverRateLimit (recordNCalls w t MAX_CALLS_PER_MINUTE) t = true ∧
    isOverRateLimit (recordNCalls w t MAX_CALLS_PER_MINUTE) (t + 60000) = false := by
  refine ⟨rfl, fun _ _ => rfl, ?_, ?_⟩
  · unfold isOverRateLimit
    rw [decide_eq_true_iff, length_filter_recordNCalls]
    simp [MAX_CALLS_PER_MINUTE]
  · unfold isOverRateLimit
    rw [decide_eq_false_iff_not]
    intro hcontra
    have hnil :
        (recordNCalls w t MAX_CALLS_PER_MINUTE).filter
          (fun ts => t + 60000 - ts < 60000) = [] := by
      rw [List.filter_eq_nil_iff]
      intro x hx
      have := mem_recordNCalls_le hw MAX_CALLS_PER_MINUTE x hx
      simp only [decide_eq_true_eq]
      omega
    rw [hnil] at hcontra
    simp [MAX_CALLS_PER_MINUTE] at hcontra

/-! ### Dedup cache lemmas (C7) -/

/-- The inserted identifier is always in the cache afterwards. -/
theorem mem_addProcessedEvent {α : Type} [DecidableEq α] (eid : α) (cache : List α) :
    eid ∈ addProcessedEvent eid cache := by
  simp only [addProcessedEvent]
  by_cases h : eid ∈ (if MAX_CACHE_SIZE ≤ cache.length then cache.drop (MAX_CACHE_SIZE / 2) else cache)
  · rw [if_pos h]; exact h
  · rw [if_neg h]; exact List.mem_append_right _ (List.mem_singleton.mpr rfl)

/-- While the combined contents stay within capacity and are duplicate-free,
inserting identifiers one by one just appends them in order. -/
theorem insertAllEvents_of_nodup {α : Type} [DecidableEq α] :
    ∀ (ids c : List α), (c ++ ids).Nodup → (c ++ ids).length ≤ MAX_CACHE_SIZE →
      insertAllEvents ids c = c ++ ids := by
  intro ids
  induction ids with
  | nil => intro c _ _; simp [insertAllEvents]
  | cons a l ih =>
    intro c hnd hlen
    have hclen : ¬ MAX_CACHE_SIZE ≤ c.length := by
      simp [List.length_append] at hlen; omega
    have ha : a ∉ c := by
      rw [List.nodup_append] at hnd
      intro hac
      exact hnd.2.2 hac (List.mem_cons_self a l)
    have hstep : addProcessedEvent a c = c ++ [a] := by
      simp only [addProcessedEvent]
      rw [if_neg hclen, if_neg ha]
    have hrw : insertAllEvents (a :: l) c = insertAllEvents l (addProcessedEvent a c) := rfl
    rw [hrw, hstep, ih (c ++ [a]) (by simpa using hnd) (by simpa using hlen)]
    simp

/-- C7: `addProcessedEvent` keeps the cache size at most
`MAX_CACHE_SIZE = 1000`; when the size has reached the cap before an
insertion, the oldest `MAX_CACHE_SIZE / 2` entries (by insertion order) are
evicted in one pass first; and inserting `MAX_CACHE_SIZE + 1` distinct
identifiers from an empty cache leaves at most `MAX_CACHE_SIZE` entries with
the very first identifier no longer present. -/
theorem C7_dedup_cache_eviction {α : Type} [DecidableEq α] :
    (∀ (eid : α) (cache : List α), cache.length ≤ MAX_CACHE_SIZE →
      (addProcessedEvent eid cache).length ≤ MAX_CACHE_SIZE) ∧
    (∀ (cache : List α), MAX_CACHE_SIZE ≤ cache.length → ∀ eid,
      addProcessedEvent eid cache =
        if eid ∈ cache.drop (MAX_CACHE_SIZE / 2) then cache.drop (MAX_CACHE_SIZE / 2)
        else cache.drop (MAX_CACHE_SIZE / 2) ++ [eid]) ∧
    (∀ ids : List α, ids.Nodup → ids.length = MAX_CACHE_SIZE + 1 →
      (insertAllEvents ids []).length ≤ MAX_CACHE_SIZE ∧
      ∀ x, ids.head? = some x → x ∉ insertAllEvents ids []) := by
  refine ⟨?_, ?_, ?_⟩
  · intro eid cache hlen
    simp only [addProcessedEvent]
    by_cases h1 : MAX_CACHE_SIZE ≤ cache.length
    · rw [if_pos h1]
      split
      · simp only [List.length_drop, MAX_CACHE_SIZE] at *; omega
      · simp only [List.length_append, List.length_drop, List.length_singleton,
          MAX_CACHE_SIZE] at *
        omega
    · rw [if_neg h1]
      split
      · exact hlen
      · simp only [List.length_append, List.length_singleton]; omega
  · intro cache hge eid
    simp only [addProcessedEvent]
    rw [if_pos hge]
  · intro ids hnd hlen
    obtain ⟨y, rest, rfl⟩ : ∃ y rest, ids = y :: rest := by
      cases ids with
      | nil => simp [MAX_CACHE_SIZE] at hlen
      | cons a l => exact ⟨a, l, rfl⟩
    have hrlen : rest.length = 1000 := by
      simpa [MAX_CACHE_SIZE] using hlen
    have hynr : y ∉ rest := (List.nodup_cons.mp hnd).1
    obtain ⟨x, hx⟩ : ∃ x, rest.drop 999 = [x] :=
      List.length_eq_one.mp (by simp [hrlen])
    have hxmem : x ∈ rest := List.drop_subset _ rest (hx ▸ List.mem_singleton.mpr rfl)
    have hsplit : (y :: rest) = (y :: rest.take 999) ++ [x] := by
      rw [← hx]
      simp [List.take_append_drop]
    have htake_len : (y :: rest.take 999).length = 1000 := by
      simp [List.length_take, hrlen]
    have hxtake : x ∉ y :: rest.take 999 := by
      rw [hsplit, List.nodup_append] at hnd
      intro hcontra
      exact hnd.2.2 hcontra (List.mem_singleton.mpr rfl)
    have hfill : insertAllEvents (y :: rest.take 999) ([] : List α) = y :: rest.take 999 := by
      have htake_nodup : (y :: rest.take 999).Nodup := by
        rw [hsplit, List.nodup_append] at hnd
        exact hnd.1
      have h1 := insertAllEvents_of_nodup (y :: rest.take 999) []
        (by simpa using htake_nodup) (by simp [htake_len, MAX_CACHE_SIZE])
      simpa using h1
    have hlast : insertAllEvents (y :: rest) ([] : List α) =
        addProcessedEvent x (y :: rest.take 999) := by
      rw [hsplit]
      show List.foldl (fun c eid => addProcessedEvent eid c) [] ((y :: rest.take 999) ++ [x]) = _
      rw [List.foldl_append,
        show List.foldl (fun c eid => addProcessedEvent eid c) ([] : List α)
            (y :: rest.take 999) = insertAllEvents (y :: rest.take 999) [] from rfl, hfill]
      rfl
    have hdropform : addProcessedEvent x (y :: rest.take 999) =
        (rest.take 999).drop 499 ++ [x] := by
      have hcond : MAX_CACHE_SIZE ≤ (y :: rest.take 999).length := by
        rw [htake_len]
        simp [MAX_CACHE_SIZE]
      have hdrop : (y :: rest.take 999).drop (MAX_CACHE_SIZE / 2) =
          (rest.take 999).drop 499 := by
        rw [show MAX_CACHE_SIZE / 2 = 499 + 1 from rfl, List.drop_succ_cons]
      have hnm : x ∉ (rest.take 999).drop 499 :=
        fun hcontra => hxtake (List.mem_cons_of_mem y (List.drop_subset _ _ hcontra))
      simp only [addProcessedEvent, if_pos hcond, hdrop, if_neg hnm]
    constructor
    · rw [hlast, hdropform]
      simp only [List.length_append, List.length_drop, List.length_take, hrlen,
        List.length_singleton, MAX_CACHE_SIZE]
      omega
    · intro z hz
      have hzy : z = y := by
        have := hz
        simp only [List.head?_cons, Option.some.injEq] at this
        exact this.symm
      subst hzy
      rw [hlast, hdropform]
      intro hcontra
      rcases List.mem_append.mp hcontra with h | h
      · exact hynr (List.take_subset _ _ (List.drop_subset _ _ h))
      · have hzx : z = x := by simpa using h
        subst hzx
        exact hynr hxmem

/-- Witness for C7: `α = ℕ`, a small concrete insertion and the
`MAX_CACHE_SIZE + 1` distinct identifiers `0, 1, ..., 1000`. -/
theorem C7_dedup_cache_eviction_witness :
    (addProcessedEvent 5 [1, 2, 3]).length ≤ MAX_CACHE_SIZE ∧
    ((insertAllEvents (List.range (MAX_CACHE_SIZE + 1)) []).length ≤ MAX_CACHE_SIZE ∧
      ∀ x, (List.range (MAX_CACHE_SIZE + 1)).head? = some x →
        x ∉ insertAllEvents (List.range (MAX_CACHE_SIZE + 1)) ([] : List Nat)) :=
  ⟨(@C7_dedup_cache_eviction Nat _).1 5 [1, 2, 3] (by simp [MAX_CACHE_SIZE]),
    (@C7_dedup_cache_eviction Nat _).2.2 (List.range (MAX_CACHE_SIZE + 1))
      (List.nodup_range _) (by simp)⟩

/-! ### Drain order lemmas (C4) -/

/-- `dequeueNext` removes exactly one task. -/
theorem dequeueNext_some_length {q : List SyncTask} {tk : SyncTask} {r : List SyncTask}
    (h : dequeueNext q = some (tk, r)) : r.length + 1 = q.length := by
  match q with
  | [] => simp [dequeueNext] at h
  | a :: t =>
    rw [dequeueNext] at h
    cases hf : (a :: t).find? (fun x => x.forceSync) with
    | none =>
      rw [hf] at h
      simp only [Option.some.injEq, Prod.mk.injEq] at h
      rw [← h.2]
      simp
    | some ft =>
      rw [hf] at h
      simp only [Option.some.injEq, Prod.mk.injEq] at h
      rw [← h.2]
      exact List.length_eraseP_add_one (List.mem_of_find?_eq_some hf) (List.find?_some hf)

/-- When a task satisfying `p` is found, erasing it removes the first
`p`-satisfying element from the `p`-filter and leaves the `¬p`-filter
untouched. -/
theorem find?_filter_split (p : SyncTask → Bool) :
    ∀ (l : List SyncTask) (ft : SyncTask), l.find? p = some ft →
      l.filter p = ft :: (l.eraseP p).filter p ∧
        (l.eraseP p).filter (fun x => !(p x)) = l.filter (fun x => !(p x)) := by
  intro l
  induction l with
  | nil => intro ft h; simp at h
  | cons a t ih =>
    intro ft h
    by_cases pa : p a
    · rw [List.find?_cons_of_pos _ pa] at h
      have hfa : ft = a := by simpa using h.symm
      subst hfa
      rw [List.eraseP_cons_of_pos pa, List.filter_cons_of_pos pa,
        List.filter_cons_of_neg (by simp [pa])]
      exact ⟨rfl, rfl⟩
    · rw [List.find?_cons_of_neg _ pa] at h
      obtain ⟨h1, h2⟩ := ih ft h
      rw [List.eraseP_cons_of_neg pa, List.filter_cons_of_neg pa,
        List.filter_cons_of_neg pa, List.filter_cons_of_pos (by simp [pa]),
        List.filter_cons_of_pos (by simp [pa])]
      exact ⟨h1, by rw [h2]⟩

/-- Characterization of the drain order: all `forceSync` tasks (in FIFO
order among themselves) precede all non-`forceSync` tasks (in FIFO order
among themselves). -/
theorem drainOrderAux_eq :
    ∀ (fuel : Nat) (q : List SyncTask), q.length ≤ fuel →
      drainOrderAux fuel q =
        q.filter (fun tk => tk.forceSync) ++ q.filter (fun tk => !tk.forceSync) := by
  intro fuel
  induction fuel with
  | zero =>
    intro q hq
    have : q = [] := List.eq_nil_of_length_eq_zero (by omega)
    subst this
    rfl
  | succ fuel ih =>
    intro q hq
    cases q with
    | nil => rfl
    | cons a t =>
      rw [drainOrderAux]
      cases hf : (a :: t).find? (fun tk => tk.forceSync) with
      | none =>
        simp only [dequeueNext, hf]
        have hall : ∀ x ∈ a :: t, ¬ (fun tk => tk.forceSync) x = true :=
          List.find?_eq_none.mp hf
        have hfa : ¬ a.forceSync = true := hall a (List.mem_cons_self a t)
        have hft : t.filter (fun tk => tk.forceSync) = [] :=
          List.filter_eq_nil_iff.mpr fun x hx => hall x (List.mem_cons_of_mem a hx)
        have hfq : (a :: t).filter (fun tk => tk.forceSync) = [] :=
          List.filter_eq_nil_iff.mpr hall
        rw [hfq, List.nil_append, List.filter_cons_of_pos (by simpa using hfa)]
        have iht := ih t (by simpa using Nat.le_of_succ_le_succ hq)
        rw [iht, hft, List.nil_append]
      | some ft =>
        simp only [dequeueNext, hf]
        have hlenE : ((a :: t).eraseP (fun tk => tk.forceSync)).length + 1 = (a :: t).length :=
          List.length_eraseP_add_one (List.mem_of_find?_eq_some hf) (List.find?_some hf)
        have ihE := ih ((a :: t).eraseP (fun tk => tk.forceSync)) (by omega)
        obtain ⟨h1, h2⟩ := find?_filter_split (fun tk => tk.forceSync) (a :: t) ft hf
        rw [ihE, h1, h2]
        rfl

/-- C4: the drain loop serves every `forceSync` task before every
non-`forceSync` task with FIFO order within each class; in particular, for
queue `[A (forced = false), B (forced = false), C (forced = true)]` the
service order is `C, A, B`. -/
theorem C4_priority_order :
    (∀ q : List SyncTask,
      drainOrder q =
        q.filter (fun tk => tk.forceSync) ++ q.filter (fun tk => !tk.forceSync)) ∧
    drainOrder
        [⟨"sync", false, none, false, 0⟩, ⟨"sync", false, none, false, 1⟩,
          ⟨"webhook", true, none, false, 2⟩] =
      [⟨"webhook", true, none, false, 2⟩, ⟨"sync", false, none, false, 0⟩,
        ⟨"sync", false, none, false, 1⟩] := by
  constructor
  · intro q
    exact drainOrderAux_eq q.length q le_rfl
  · decide

/-! ### Drain-step theorems (C8, C10, C6) -/

/-- C8: when the rate limiter reports over-limit, the dequeued task is put
back at the head of the queue and the loop pauses 1000 ms; the attempt
records no API call (the rate budget is untouched), performs no execution
and invokes no completion callback. -/
theorem C8_rate_limited_requeue (s : SyncState) (now : Nat) (task : SyncTask)
    (rest : List SyncTask) (outcome : ExecOutcome)
    (hdq : dequeueNext s.syncQueue = some (task, rest))
    (hover : isOverRateLimit s.apiCalls now = true) :
    processSyncQueueStep s now outcome =
      ({ s with syncQueue := task :: rest },
        [SyncEvent.waited 1000, SyncEvent.requeued task]) ∧
    (processSyncQueueStep s now outcome).1.apiCalls = s.apiCalls ∧
    (processSyncQueueStep s now outcome).1.processedEvents = s.processedEvents ∧
    (processSyncQueueStep s now outcome).2.filter isExecutedEvent = [] ∧
    (processSyncQueueStep s now outcome).2.filter isCallbackEvent = [] := by
  have hstep : processSyncQueueStep s now outcome =
      ({ s with syncQueue := task :: rest },
        [SyncEvent.waited 1000, SyncEvent.requeued task]) := by
    rw [processSyncQueueStep, hdq]
    simp [hover]
  refine ⟨hstep, ?_, ?_, ?_, ?_⟩ <;> rw [hstep] <;> rfl

/-- Witness for C8: a queue with one task and a window already holding
`MAX_CALLS_PER_MINUTE` fresh timestamps. -/
theorem C8_rate_limited_requeue_witness :
    processSyncQueueStep ⟨[⟨"sync", false, none, false, 0⟩], List.replicate 60 0, []⟩ 0
        (ExecOutcome.ok true) =
      (⟨[⟨"sync", false, none, false, 0⟩], List.replicate 60 0, []⟩,
        [SyncEvent.waited 1000, SyncEvent.requeued ⟨"sync", false, none, false, 0⟩]) ∧
    (processSyncQueueStep ⟨[⟨"sync", false, none, false, 0⟩], List.replicate 60 0, []⟩ 0
        (ExecOutcome.ok true)).1.apiCalls = List.replicate 60 0 ∧
    (processSyncQueueStep ⟨[⟨"sync", false, none, false, 0⟩], List.replicate 60 0, []⟩ 0
        (ExecOutcome.ok true)).1.processedEvents = [] ∧
    (processSyncQueueStep ⟨[⟨"sync", false, none, false, 0⟩], List.replicate 60 0, []⟩ 0
        (ExecOutcome.ok true)).2.filter isExecutedEvent = [] ∧
    (processSyncQueueStep ⟨[⟨"sync", false, none, false, 0⟩], List.replicate 60 0, []⟩ 0
        (ExecOutcome.ok true)).2.filter isCallbackEvent = [] :=
  C8_rate_limited_requeue _ 0 _ [] (ExecOutcome.ok true) (by decide) (by decide)

/-- C10: each executed task with a completion callback has the callback
invoked exactly once — with the boolean outcome on normal completion and
with `false` when the execution raises. -/
theorem C10_callback_exactly_once (s : SyncState) (now : Nat) (task : SyncTask)
    (rest : List SyncTask) (outcome : ExecOutcome)
    (hdq : dequeueNext s.syncQueue = some (task, rest))
    (hover : isOverRateLimit s.apiCalls now = false)
    (hcb : task.hasCallback = true) :
    ((processSyncQueueStep s now outcome).2.filter isCallbackEvent).length = 1 ∧
    (∀ success, outcome = ExecOutcome.ok success →
      (processSyncQueueStep s now outcome).2.filter isCallbackEvent =
        [SyncEvent.callbackInvoked task success]) ∧
    (outcome = ExecOutcome.raised →
      (processSyncQueueStep s now outcome).2.filter isCallbackEvent =
        [SyncEvent.callbackInvoked task false]) := by
  cases outcome with
  | ok success =>
    have hstep : (processSyncQueueStep s now (ExecOutcome.ok success)).2.filter isCallbackEvent =
        [SyncEvent.callbackInvoked task success] := by
      rw [processSyncQueueStep, hdq]
      simp [hover, hcb, isCallbackEvent]
    refine ⟨by rw [hstep]; rfl, ?_, by intro h; simp at h⟩
    intro success2 h
    have hss : success2 = success := by
      have := h
      simp only [ExecOutcome.ok.injEq] at this
      exact this.symm
    subst hss
    exact hstep
  | raised =>
    have hstep : (processSyncQueueStep s now ExecOutcome.raised).2.filter isCallbackEvent =
        [SyncEvent.callbackInvoked task false] := by
      rw [processSyncQueueStep, hdq]
      simp [hover, hcb, isCallbackEvent]
    exact ⟨by rw [hstep]; rfl, fun success2 h => by simp at h, fun _ => hstep⟩


/-- Witness for C10: one task with a callback, empty rate window, push
failing normally. -/
theorem C10_callback_exactly_once_witness :
    ((processSyncQueueStep ⟨[⟨"webhook", true, some "evt", true, 0⟩], [], []⟩ 0
        (ExecOutcome.ok false)).2.filter isCallbackEvent).length = 1 ∧
    (∀ success, ExecOutcome.ok false = ExecOutcome.ok success →
      (processSyncQueueStep ⟨[⟨"webhook", true, some "evt", true, 0⟩], [], []⟩ 0
          (ExecOutcome.ok false)).2.filter isCallbackEvent =
        [SyncEvent.callbackInvoked ⟨"webhook", true, some "evt", true, 0⟩ success]) ∧
    (ExecOutcome.ok false = ExecOutcome.raised →
      (processSyncQueueStep ⟨[⟨"webhook", true, some "evt", true, 0⟩], [], []⟩ 0
          (ExecOutcome.ok false)).2.filter isCallbackEvent =
        [SyncEvent.callbackInvoked ⟨"webhook", true, some "evt", true, 0⟩ false]) :=
  C10_callback_exactly_once _ 0 _ [] (ExecOutcome.ok false) (by decide) (by decide) (by decide)

/-- C6 counterexample: a dequeued task carrying `eventId = "evt"` whose
execution raises (the fetch throws) finishes through the `catch` branch —
the callback fires with `false` — but `"evt"` is *not* recorded in the dedup
cache, contradicting the claim that the event is recorded regardless even
when the execution raises. -/
theorem C6_event_recorded_counterexample :
    ((processSyncQueueStep ⟨[⟨"webhook", true, some "evt", true, 0⟩], [], []⟩ 0
        ExecOutcome.raised).2.filter isExecutedEvent).length = 1 ∧
    SyncEvent.callbackInvoked ⟨"webhook", true, some "evt", true, 0⟩ false ∈
      (processSyncQueueStep ⟨[⟨"webhook", true, some "evt", true, 0⟩], [], []⟩ 0
        ExecOutcome.raised).2 ∧
    (processSyncQueueStep ⟨[⟨"webhook", true, some "evt", true, 0⟩], [], []⟩ 0
        ExecOutcome.raised).1.processedEvents = [] ∧
    ¬ "evt" ∈ (processSyncQueueStep ⟨[⟨"webhook", true, some "evt", true, 0⟩], [], []⟩ 0
        ExecOutcome.raised).1.processedEvents := by
  decide

/-- C6 (amended): when a dequeued task carrying a non-empty `eventId`
completes its execution normally, the event is recorded in the dedup cache
regardless of the push outcome (`success` may be `true` or `false`); when
the execution raises, the `catch` branch skips the recording and the cache
is unchanged. -/
theorem C6_event_recorded_amended (s : SyncState) (now : Nat) (task : SyncTask)
    (rest : List SyncTask) (e : String) (success : Bool)
    (hdq : dequeueNext s.syncQueue = some (task, rest))
    (hover : isOverRateLimit s.apiCalls now = false)
    (he : task.eventId = some e) (hne : e ≠ "") :
    e ∈ (processSyncQueueStep s now (ExecOutcome.ok success)).1.processedEvents ∧
    (processSyncQueueStep s now ExecOutcome.raised).1.processedEvents = s.processedEvents := by
  constructor
  · rw [processSyncQueueStep, hdq]
    have htruthy : jsTruthyId task.eventId = true := by
      rw [he]
      simpa [jsTruthyId] using hne
    simp only [hover, Bool.false_eq_true, if_false, htruthy, if_true]
    simpa [he] using mem_addProcessedEvent e s.processedEvents
  · rw [processSyncQueueStep, hdq]
    simp [hover]

/-- Witness for C6 (amended): one task with `eventId = "evt"`, empty window,
push reporting failure. -/
theorem C6_event_recorded_amended_witness :
    "evt" ∈ (processSyncQueueStep ⟨[⟨"webhook", true, some "evt", true, 0⟩], [], []⟩ 0
        (ExecOutcome.ok false)).1.processedEvents ∧
    (processSyncQueueStep ⟨[⟨"webhook", true, some "evt", true, 0⟩], [], []⟩ 0
        ExecOutcome.raised).1.processedEvents = [] :=
  C6_event_recorded_amended ⟨[⟨"webhook", true, some "evt", true, 0⟩], [], []⟩ 0
    ⟨"webhook", true, some "evt", true, 0⟩ [] "evt" false (by decide) (by decide) rfl
    (by decide)

/-! ### Dedup-on-enqueue theorems (C1) -/

/-- C1 counterexample: two `addSyncTask` calls carrying the same non-empty
`eventId = "evt"`, the second issued before the first task has executed.
The dedup cache is only populated after execution, so the second enqueue is
*accepted* (`true`, not the claimed `false`), the queue holds both tasks,
and draining the queue executes the sync twice, not exactly once. -/
theorem C1_dedup_counterexample :
    (addSyncTask "webhook" false (some "evt") true 1
        (addSyncTask "webhook" false (some "evt") true 0 ⟨[], [], []⟩).2).1.1 = true ∧
    (addSyncTask "webhook" false (some "evt") true 1
        (addSyncTask "webhook" false (some "evt") true 0 ⟨[], [], []⟩).2).2.syncQueue.length = 2 ∧
    ((processSyncQueueRun 2
        (addSyncTask "webhook" false (some "evt") true 1
          (addSyncTask "webhook" false (some "evt") true 0 ⟨[], [], []⟩).2).2
        [(0, ExecOutcome.ok true), (1, ExecOutcome.ok true)]).2.filter
      isExecutedEvent).length = 2 := by
  decide

/-- C1 (amended): once the first task carrying the non-empty `eventId` has
completed its execution — so the identifier is in the dedup cache — a second
enqueue with the same `eventId` is rejected without appending to the queue,
returns not-accepted (`false`), and its callback fires with `true`; the sync
executed exactly once.  (In general, any enqueue whose truthy `eventId` is
already processed is rejected this way.) -/
theorem C1_dedup_amended (e : String) (he : e ≠ "") (b : Bool) :
    (∀ (s : SyncState) (ty : String) (fs hc : Bool) (now : Nat),
      isEventProcessed e s.processedEvents = true →
      addSyncTask ty fs (some e) hc now s =
        ((false, if hc then some true else none), s)) ∧
    (addSyncTask "webhook" false (some e) true 0 ⟨[], [], []⟩).1.1 = true ∧
    ((processSyncQueueRun 1 (addSyncTask "webhook" false (some e) true 0 ⟨[], [], []⟩).2
        [(0, ExecOutcome.ok b)]).2.filter isExecutedEvent).length = 1 ∧
    isEventProcessed e
        (processSyncQueueRun 1 (addSyncTask "webhook" false (some e) true 0 ⟨[], [], []⟩).2
          [(0, ExecOutcome.ok b)]).1.processedEvents = true ∧
    (addSyncTask "webhook" false (some e) true 5
        (processSyncQueueRun 1 (addSyncTask "webhook" false (some e) true 0 ⟨[], [], []⟩).2
          [(0, ExecOutcome.ok b)]).1).1 = (false, some true) := by
  have hbe : (e != "") = true := by simpa using he
  have hfirst : addSyncTask "webhook" false (some e) true 0 ⟨[], [], []⟩ =
      ((true, none), ⟨[⟨"webhook", false, some e, true, 0⟩], [], []⟩) := by
    rw [addSyncTask]
    simp [isEventProcessed]
  have hrun : processSyncQueueRun 1 (addSyncTask "webhook" false (some e) true 0 ⟨[], [], []⟩).2
      [(0, ExecOutcome.ok b)] =
      (⟨[], recordApiCall [] 0, [e]⟩,
        [SyncEvent.executed ⟨"webhook", false, some e, true, 0⟩ (ExecOutcome.ok b),
          SyncEvent.callbackInvoked ⟨"webhook", false, some e, true, 0⟩ b,
          SyncEvent.waited 500]) := by
    rw [hfirst]
    show (let r1 := processSyncQueueStep ⟨[⟨"webhook", false, some e, true, 0⟩], [], []⟩ 0
            (ExecOutcome.ok b)
          let r2 := processSyncQueueRun 0 r1.1 []
          (r2.1, r1.2 ++ r2.2)) = _
    have hstep : processSyncQueueStep ⟨[⟨"webhook", false, some e, true, 0⟩], [], []⟩ 0
        (ExecOutcome.ok b) =
        (⟨[], recordApiCall [] 0, [e]⟩,
          [SyncEvent.executed ⟨"webhook", false, some e, true, 0⟩ (ExecOutcome.ok b),
            SyncEvent.callbackInvoked ⟨"webhook", false, some e, true, 0⟩ b,
            SyncEvent.waited 500]) := by
      rw [processSyncQueueStep]
      have hdq : dequeueNext [⟨"webhook", false, some e, true, 0⟩] =
          some (⟨"webhook", false, some e, true, 0⟩, []) := by
        rw [dequeueNext]
        rfl
      rw [hdq]
      have hov : isOverRateLimit ([] : List Nat) 0 = false := by decide
      simp only [hov, Bool.false_eq_true, if_false, jsTruthyId, hbe, if_true]
      simp [addProcessedEvent, MAX_CACHE_SIZE]
    rw [hstep]
    rfl
  refine ⟨?_, ?_, ?_, ?_, ?_⟩
  · intro s ty fs hc now hp
    rw [addSyncTask]
    simp only [jsTruthyId, hbe, Option.getD_some, hp, Bool.and_self, if_true]
  · rw [hfirst]
  · rw [hrun]
    simp [isExecutedEvent]
  · rw [hrun]
    simp [isEventProcessed]
  · rw [hrun]
    rw [addSyncTask]
    simp only [jsTruthyId, hbe, Option.getD_some]
    simp [isEventProcessed]

/-- Witness for C1 (amended) at `e = "evt"`, `b = true`. -/
theorem C1_dedup_amended_witness :
    (∀ (s : SyncState) (ty : String) (fs hc : Bool) (now : Nat),
      isEventProcessed "evt" s.processedEvents = true →
      addSyncTask ty fs (some "evt") hc now s =
        ((false, if hc then some true else none), s)) ∧
    (addSyncTask "webhook" false (some "evt") true 0 ⟨[], [], []⟩).1.1 = true ∧
    ((processSyncQueueRun 1 (addSyncTask "webhook" false (some "evt") true 0 ⟨[], [], []⟩).2
        [(0, ExecOutcome.ok true)]).2.filter isExecutedEvent).length = 1 ∧
    isEventProcessed "evt"
        (processSyncQueueRun 1 (addSyncTask "webhook" false (some "evt") true 0 ⟨[], [], []⟩).2
          [(0, ExecOutcome.ok true)]).1.processedEvents = true ∧
    (addSyncTask "webhook" false (some "evt") true 5
        (processSyncQueueRun 1 (addSyncTask "webhook" false (some "evt") true 0 ⟨[], [], []⟩).2
          [(0, ExecOutcome.ok true)]).1).1 = (false, some true) :=
  C1_dedup_amended "evt" (by decide) true

/-! ### Batch paginator theorems (C3, C9) -/

/-- The floor of a quotient of natural casts is natural division. -/
theorem floor_natCast_div (a b : Nat) :
    Int.floor ((a : ℚ) / (b : ℚ)) = ((a / b : Nat) : ℤ) := by
  rcases Nat.eq_zero_or_pos b with hb | hb
  · subst hb
    simp
  · have h0 : (0 : ℚ) ≤ (a : ℚ) / (b : ℚ) := by positivity
    rw [← Int.natCast_floor_eq_floor h0]
    have h1 : ⌊(a : ℚ) / (b : ℚ)⌋₊ = a / b := by
      rw [Nat.floor_div_nat, Nat.floor_natCast]
    rw [h1]

/-- The JS time-modulo formula `Math.floor((m / i) % T)` computed over exact
rationals equals natural division followed by `% T`. -/
theorem currentBatchIndex_eq (m i T : Nat) (_hT : 0 < T) :
    currentBatchIndex m i T = ((m / i % T : Nat) : ℤ) := by
  unfold currentBatchIndex jsFloorMod
  have h1 : (m : ℚ) / (i : ℚ) / (T : ℚ) = (m : ℚ) / ((i * T : Nat) : ℚ) := by
    push_cast
    rw [div_div]
  rw [h1, floor_natCast_div]
  have h2 : (T : ℚ) * (((m / (i * T) : Nat) : ℤ) : ℚ) =
      (((T * (m / (i * T)) : Nat) : ℤ) : ℚ) := by
    push_cast
    ring
  rw [h2, Int.floor_sub_int, floor_natCast_div]
  have h3 : m / (i * T) = m / i / T := (Nat.div_div_eq_div_mul m i T).symm
  rw [h3]
  have h4 := Nat.div_add_mod (m / i) T
  omega

/-- C3: for a nonempty task list, the pushed page satisfies the spec's
formula — `pageIndex = ⌊(minutesSinceMidnight / interval) mod totalPages⌋`
(equal to `(m / i) % T` over naturals), `pageNumber = pageIndex + 1` lies in
`[1, totalPages]`, the slice is
`tasks[pageIndex*pageSize : min((pageIndex+1)*pageSize, len)]`, and the
slice bounds stay within the list. -/
theorem C3_page_selection (tasks : List String) (batchSize intervalMinutes hour minute : Nat)
    (pushOk : Bool) (m T pIdx : Nat)
    (hne : tasks ≠ []) (hB : 0 < batchSize) (_hi : 0 < intervalMinutes)
    (hm : m = hour * 60 + minute) (hTdef : T = jsCeilDiv tasks.length batchSize)
    (hp : pIdx = m / intervalMinutes % T) :
    currentBatchIndex m intervalMinutes T = (pIdx : Int) ∧
    (sendTasksInBatches tasks batchSize intervalMinutes hour minute pushOk).2 =
      [⟨(pIdx : Int) + 1, T, tasks.length, ((pIdx * batchSize : Nat) : Int),
        (tasks.take (min ((pIdx + 1) * batchSize) tasks.length)).drop (pIdx * batchSize)⟩] ∧
    1 ≤ pIdx + 1 ∧ pIdx + 1 ≤ T ∧ pIdx * batchSize < tasks.length ∧
    min ((pIdx + 1) * batchSize) tasks.length ≤ tasks.length := by
  have hL : 0 < tasks.length := List.length_pos.mpr hne
  have hT1 : jsCeilDiv tasks.length batchSize = (tasks.length - 1) / batchSize + 1 := by
    unfold jsCeilDiv
    rw [show tasks.length + batchSize - 1 = (tasks.length - 1) + batchSize by omega,
      Nat.add_div_right _ hB]
  have hTpos : 0 < T := by
    rw [hTdef, hT1]
    exact Nat.succ_pos _
  have hCB : currentBatchIndex m intervalMinutes T = (pIdx : Int) := by
    rw [currentBatchIndex_eq m intervalMinutes T hTpos, hp]
  have hpltT : pIdx < T := by
    rw [hp]
    exact Nat.mod_lt _ hTpos
  have hstart : pIdx * batchSize < tasks.length := by
    have hple : pIdx ≤ (tasks.length - 1) / batchSize := by
      rw [hTdef, hT1] at hpltT
      omega
    calc pIdx * batchSize ≤ (tasks.length - 1) / batchSize * batchSize :=
          Nat.mul_le_mul_right _ hple
      _ ≤ tasks.length - 1 := Nat.div_mul_le_self _ _
      _ < tasks.length := by omega
  refine ⟨hCB, ?_, Nat.le_add_left 1 pIdx, hpltT, hstart, min_le_right _ _⟩
  simp only [sendTasksInBatches]
  rw [if_neg (by omega : ¬ tasks.length = 0)]
  rw [← hm, ← hTdef, hCB]
  have hs1 : ((pIdx : Int) + 1 - 1) * (batchSize : Int) = ((pIdx * batchSize : Nat) : Int) := by
    push_cast
    ring
  have hs2 : ((pIdx * batchSize : Nat) : Int) + (batchSize : Int) =
      (((pIdx + 1) * batchSize : Nat) : Int) := by
    push_cast
    ring
  have hs3 : min ((((pIdx + 1) * batchSize : Nat)) : Int) ((tasks.length : Nat) : Int) =
      ((min ((pIdx + 1) * batchSize) tasks.length : Nat) : Int) := by
    rw [Nat.cast_min]
  rw [hs1, hs2, hs3]
  simp only [jsSlice, Int.toNat_ofNat]

/-- Witness for C3: `tasks = ["a","b","c","d"]`, page size 3, interval 2,
time 00:03 — page 2 of 2, slice `["d"]`. -/
theorem C3_page_selection_witness :
    currentBatchIndex 3 2 2 = ((1 : Nat) : Int) ∧
    (sendTasksInBatches ["a", "b", "c", "d"] 3 2 0 3 true).2 =
      [⟨((1 : Nat) : Int) + 1, 2, (["a", "b", "c", "d"] : List String).length,
        ((1 * 3 : Nat) : Int),
        ((["a", "b", "c", "d"] : List String).take
          (min ((1 + 1) * 3) (["a", "b", "c", "d"] : List String).length)).drop (1 * 3)⟩] ∧
    1 ≤ 1 + 1 ∧ 1 + 1 ≤ 2 ∧ 1 * 3 < (["a", "b", "c", "d"] : List String).length ∧
    min ((1 + 1) * 3) (["a", "b", "c", "d"] : List String).length ≤
      (["a", "b", "c", "d"] : List String).length :=
  C3_page_selection ["a", "b", "c", "d"] 3 2 0 3 true 3 2 1 (by decide) (by decide)
    (by decide) rfl (by decide) (by decide)

/-- C9: for an empty task list (`totalPages = 0`) the batch-send operation
returns success with no push, deterministically — the result does not depend
on the wall-clock time, the interval, the page size or the push collaborator,
and the time-modulo formula is never reached. -/
theorem C9_empty_returns_success (batchSize intervalMinutes hour minute : Nat) (pushOk : Bool) :
    sendTasksInBatches [] batchSize intervalMinutes hour minute pushOk = (true, []) := by
  simp [sendTasksInBatches]

/-! ### Message formatting theorems (C5) -/

/-- `substring(0, n)` keeps at most `n` characters. -/
theorem jsSubstring_length (s : String) (n : Nat) :
    (jsSubstring s n).length = min n s.length := by
  rw [jsSubstring, String.length_mk, List.length_take]
  rfl

/-- C5 counterexample: with the configured `maxMessageLength = 500`, a list
of 36 over-long tasks yields a joined text of 674 characters; the source
truncates it to 500 characters *and then appends* `'...'`, so
`formatTasksMessage` returns 503 characters — exceeding the configured
maximum message length, contrary to the claim that the returned message
never exceeds it. -/
theorem C5_truncation_counterexample :
    getConfig.app.maxMessageLength <
      (formatTasksMessage getConfig (List.replicate 36 "aaaaaaaaaaaa") 1 1 0).length ∧
    (formatTasksMessage getConfig (List.replicate 36 "aaaaaaaaaaaa") 1 1 0).length =
      getConfig.app.maxMessageLength + 3 := by
  constructor
  · decide
  · decide

/-- C5 (amended): every item whose text exceeds the 11-character cap is
rendered as its first 11 characters plus `'...'`; the joined message, when
longer than `config.app.maxMessageLength`, is replaced by its first
`maxMessageLength` characters plus `'...'`, so the returned message never
exceeds `maxMessageLength + 3` characters (rather than `maxMessageLength`
itself). -/
theorem C5_truncation_amended (config : Config) (tasks : List String)
    (batchNumber totalBatches startIndex : Nat) :
    (formatTasksMessage config tasks batchNumber totalBatches startIndex).length ≤
      config.app.maxMessageLength + 3 ∧
    (∀ i task, 11 < task.length →
      formatTaskLine startIndex i task =
        toString (startIndex + i + 1) ++ ". " ++ (jsSubstring task 11 ++ "...") ∧
      (jsSubstring task 11).length = 11) := by
  constructor
  · rw [formatTasksMessage]
    by_cases h : config.app.maxMessageLength <
        (String.intercalate "\n"
          (tasks.mapIdx fun i task => formatTaskLine startIndex i task)).length
    · rw [if_pos h, String.length_append, jsSubstring_length]
      have h3 : ("..." : String).length = 3 := rfl
      rw [h3]
      have := min_le_left config.app.maxMessageLength
        (String.intercalate "\n"
          (tasks.mapIdx fun i task => formatTaskLine startIndex i task)).length
      omega
    · rw [if_neg h]
      omega
  · intro i task htask
    constructor
    · rw [formatTaskLine, if_pos htask]
    · rw [jsSubstring_length]
      omega

/-- Witness for C5 (amended) at the real configuration and a single
over-long task. -/
theorem C5_truncation_amended_witness :
    (formatTasksMessage getConfig ["aaaaaaaaaaaa"] 1 1 0).length ≤
      getConfig.app.maxMessageLength + 3 ∧
    (formatTaskLine 0 0 "aaaaaaaaaaaa" =
        toString (0 + 0 + 1) ++ ". " ++ (jsSubstring "aaaaaaaaaaaa" 11 ++ "...") ∧
      (jsSubstring "aaaaaaaaaaaa" 11).length = 11) :=
  ⟨(C5_truncation_amended getConfig ["aaaaaaaaaaaa"] 1 1 0).1,
    (C5_truncation_amended getConfig ["aaaaaaaaaaaa"] 1 1 0).2 0 "aaaaaaaaaaaa" (by decide)⟩

/-- Witness for C2 at the empty window and `t = 0`. -/
theorem C2_rate_limiter_witness :
    MAX_CALLS_PER_MINUTE = 60 ∧
    (∀ (calls : List Nat) (now : Nat),
      isOverRateLimit calls now =
        decide (MAX_CALLS_PER_MINUTE ≤
          (calls.filter (fun ts => now - ts < 60000)).length)) ∧
    isOverRateLimit (recordNCalls [] 0 MAX_CALLS_PER_MINUTE) 0 = true ∧
    isOverRateLimit (recordNCalls [] 0 MAX_CALLS_PER_MINUTE) (0 + 60000) = false :=
  C2_rate_limiter [] 0 (by simp)

end N2Q
